import Mathlib

/-!
Formal model of the elastix advanced linear interpolation engine and the
multi-input random-coordinate image sampler, following the repository's
specification and the two source files
`src/Testing/itkAdvancedLinearInterpolatorTest.cxx` and
`Components/ImageSamplers/MultInputRandomCoordinate/elxMultiInputRandomCoordinateSampler.h`.
Real-valued quantities are embedded as rationals; images are modelled as a
total pixel lookup together with a per-axis discrete extent and physical
spacing.
-/

namespace Elx

/-- Modelled from the spec: the Image data model of section 3 — an
N-dimensional array of scalar samples plus geometry (per-axis spacing and
discrete extent).  The pixel lookup is total; only indices inside the extent
are ever given nonzero interpolation weight for in-bounds queries. -/
structure Image (n : ℕ) where
  size : Fin n → ℕ
  spacing : Fin n → ℚ
  pixel : (Fin n → ℤ) → ℚ

/-- Componentwise floor of a continuous index. -/
def flr {n : ℕ} (c : Fin n → ℚ) (i : Fin n) : ℤ := ⌊c i⌋

/-- Componentwise fractional part of a continuous index. -/
def frc {n : ℕ} (c : Fin n → ℚ) (i : Fin n) : ℚ := Int.fract (c i)

/-- The offset (0 or 1) selected by one bit of a neighbor bit-pattern. -/
def bit01 (b : Bool) : ℤ := if b then 1 else 0

/-- Per-axis linear weight factor: `1 - frac` for the lower neighbor,
`frac` for the upper neighbor. -/
def wfac (f : ℚ) (b : Bool) : ℚ := if b then f else 1 - f

/-- Per-axis derivative weight factor: the pair `(1-frac, frac)` replaced by
`(-1, +1)` along the differentiated axis. -/
def dfac (b : Bool) : ℚ := if b then 1 else -1

/-- The lattice neighbor of `fl` selected by bit-pattern `b`. -/
def corner {n : ℕ} (fl : Fin n → ℤ) (b : Fin n → Bool) : Fin n → ℤ :=
  fun i => fl i + bit01 (b i)

/-- Modelled from the spec (section 4.1, multilinear value): the weighted sum
over all `2^N` lattice neighbors of the floor, the weight of the neighbor
selected by bit-pattern `b` being `∏ i, (b i ? frac i : 1 - frac i)`. -/
def interpValueCF {n : ℕ} (p : (Fin n → ℤ) → ℚ) (fl : Fin n → ℤ) (fr : Fin n → ℚ) : ℚ :=
  ∑ b : Fin n → Bool, (∏ i, wfac (fr i) (b i)) * p (corner fl b)

/-- Modelled from the spec (section 4.1, multilinear gradient): the same
`2^N` neighbor sum with, along axis `k` only, the weight-factor pair
`(1-frac_k, frac_k)` replaced by `(-1, +1)`.  This is the index-space
derivative; the physical derivative divides by the axis spacing. -/
def interpDerivCF {n : ℕ} (p : (Fin n → ℤ) → ℚ) (fl : Fin n → ℤ) (fr : Fin n → ℚ)
    (k : Fin n) : ℚ :=
  ∑ b : Fin n → Bool,
    (∏ i, if i = k then dfac (b i) else wfac (fr i) (b i)) * p (corner fl b)

/-- Modelled from the spec (section 4.1): the O(2^N) single-pass
implementation that computes the value and all N index-space partial
derivatives together, sharing the neighbor fetches and the remaining-axis
weight products.  It interpolates along axis 0 between the two recursively
evaluated (n-1)-dimensional slices. -/
def recVD : (n : ℕ) → ((Fin n → ℤ) → ℚ) → (Fin n → ℤ) → (Fin n → ℚ) → ℚ × (Fin n → ℚ)
  | 0, p, _, _ => (p Fin.elim0, Fin.elim0)
  | n + 1, p, fl, fr =>
    let lo := recVD n (fun j => p (Fin.cons (fl 0) j)) (Fin.tail fl) (Fin.tail fr)
    let hi := recVD n (fun j => p (Fin.cons (fl 0 + 1) j)) (Fin.tail fl) (Fin.tail fr)
    ((1 - fr 0) * lo.1 + fr 0 * hi.1,
      Fin.cons (hi.1 - lo.1) (fun k => (1 - fr 0) * lo.2 k + fr 0 * hi.2 k))

/-- The engine's error taxonomy relevant to interpolation (spec section 7). -/
inductive InterpError where
  | outOfBounds
deriving DecidableEq

/-- The interpolatable domain (spec section 4.1 precondition):
`0 ≤ c i ≤ size i - 1` on every axis. -/
def inBounds {n : ℕ} (img : Image n) (c : Fin n → ℚ) : Prop :=
  ∀ i, 0 ≤ c i ∧ c i ≤ (img.size i : ℚ) - 1

instance {n : ℕ} (img : Image n) (c : Fin n → ℚ) : Decidable (inBounds img c) :=
  inferInstanceAs (Decidable (∀ i, 0 ≤ c i ∧ c i ≤ (img.size i : ℚ) - 1))

/-- Modelled from the spec (sections 4.1 and 7): `Evaluate` returns the
multilinear value, or the `OutOfBounds` error for a coordinate outside
`[0, size-1]` on some axis — never a silently clamped value. -/
def Evaluate {n : ℕ} (img : Image n) (c : Fin n → ℚ) : Except InterpError ℚ :=
  if inBounds img c then .ok (interpValueCF img.pixel (flr c) (frc c))
  else .error .outOfBounds

/-- Modelled from the spec (sections 4.1 and 7): joint value-and-gradient
evaluation through the shared O(2^N) pass, the gradient expressed in physical
units (index-space derivative divided by the axis spacing), or the
`OutOfBounds` error outside the domain. -/
def EvaluateValueAndGradient {n : ℕ} (img : Image n) (c : Fin n → ℚ) :
    Except InterpError (ℚ × (Fin n → ℚ)) :=
  if inBounds img c then
    .ok ((recVD n img.pixel (flr c) (frc c)).1,
      fun k => (recVD n img.pixel (flr c) (frc c)).2 k / img.spacing k)
  else .error .outOfBounds

/-- The degree-1 B-spline (hat) basis function `max 0 (1 - |t|)`. -/
def hat (t : ℚ) : ℚ := max 0 (1 - |t|)

/-- The derivative of the degree-1 B-spline basis, with the reference
implementation's convention at the nodes (`-1` at `t = 0`). -/
def hatD (t : ℚ) : ℚ := if 1 < |t| then 0 else if t < 0 then 1 else -1

/-- Modelled from the spec (sections 2 and 6): the external reference
interpolator at degree 1 — the tensor-product B-spline expansion over the
`2^N` support lattice points, with hat-function weights. -/
def refValue {n : ℕ} (img : Image n) (c : Fin n → ℚ) : ℚ :=
  ∑ b : Fin n → Bool,
    (∏ i, hat (c i - ((flr c i + bit01 (b i) : ℤ) : ℚ))) * img.pixel (corner (flr c) b)

/-- Modelled from the spec (sections 2 and 6): the reference interpolator's
degree-1 derivative along axis `k`, the hat factor replaced by its derivative
along that axis, divided by the axis spacing. -/
def refGradient {n : ℕ} (img : Image n) (c : Fin n → ℚ) (k : Fin n) : ℚ :=
  (∑ b : Fin n → Bool,
    (∏ i, if i = k then hatD (c i - ((flr c i + bit01 (b i) : ℤ) : ℚ))
      else hat (c i - ((flr c i + bit01 (b i) : ℤ) : ℚ))) * img.pixel (corner (flr c) b)) /
    img.spacing k

instance {α β : Type} [DecidableEq α] [DecidableEq β] : DecidableEq (Except α β) := fun a b =>
  match a, b with
  | .ok x, .ok y => decidable_of_iff (x = y) (by constructor <;> (intro h; cases h; rfl))
  | .error x, .error y => decidable_of_iff (x = y) (by constructor <;> (intro h; cases h; rfl))
  | .ok _, .error _ => isFalse (by intro h; cases h)
  | .error _, .ok _ => isFalse (by intro h; cases h)

/-- The discrete index one step up from `idx` along axis `k`. -/
def bump {n : ℕ} (idx : Fin n → ℤ) (k : Fin n) : Fin n → ℤ :=
  fun i => if i = k then idx i + 1 else idx i

/-- The discrete index one step down from `idx` along axis `k`. -/
def drop1 {n : ℕ} (idx : Fin n → ℤ) (k : Fin n) : Fin n → ℤ :=
  fun i => if i = k then idx i - 1 else idx i

/-- The central difference of the samples of `p` between the two immediate
neighbors of `idx` along axis `k` (unit spacing). -/
def centralDiff {n : ℕ} (p : (Fin n → ℤ) → ℚ) (idx : Fin n → ℤ) (k : Fin n) : ℚ :=
  (p (bump idx k) - p (drop1 idx k)) / 2

/-- The one-sided forward difference of the samples of `p` from `idx` to its
immediate upper neighbor along axis `k` (unit spacing). -/
def forwardDiff {n : ℕ} (p : (Fin n → ℤ) → ℚ) (idx : Fin n → ℤ) (k : Fin n) : ℚ :=
  p (bump idx k) - p idx

/-- The 10x10 2-D image of the spec's example scenario, with spacing
`(1.0, 1.0)` and an arbitrary sample array `p`. -/
def image10 (p : (Fin 2 → ℤ) → ℚ) : Image 2 :=
  { size := fun _ => 10, spacing := fun _ => 1, pixel := p }

/-- A concrete sample array on which forward and central differences differ. -/
def sqPixel : (Fin 2 → ℤ) → ℚ := fun j => (j 0 : ℚ) ^ 2

/-- The lattice-point coordinate `(4.0, 6.0)` of the example scenario. -/
def c46 : Fin 2 → ℚ := ![4, 6]

/-- The discrete index `(4, 6)`. -/
def idx46 : Fin 2 → ℤ := ![4, 6]

/-- A concrete 2-D test image used to witness the interpolation theorems. -/
def wimg : Image 2 :=
  { size := fun _ => 10, spacing := fun _ => 1, pixel := fun j => (j 0 : ℚ) + 2 * (j 1 : ℚ) }

/-- A concrete in-bounds continuous coordinate. -/
def wc : Fin 2 → ℚ := ![1/2, 1/4]

/-- Modelled from the spec: one participating image of the multi-input
sampler (section 4.2) — its grid geometry as the map from candidate physical
coordinates into the image's own continuous index space, its discrete extent,
the boundary margin required by the interpolation degree, and an optional
mask predicate tested in that image's space. -/
structure ParticipatingImage (n : ℕ) where
  toIndex : (Fin n → ℚ) → (Fin n → ℚ)
  size : Fin n → ℕ
  margin : ℚ
  hasMask : Bool
  mask : (Fin n → ℚ) → Bool

/-- Modelled from the spec (section 4.2 step 3): one image accepts a
candidate when the candidate, transformed into the image's index space, lies
within the interpolatable bounds shrunk by the margin, and the mask (when
configured) accepts it. -/
def imageAccepts {n : ℕ} (im : ParticipatingImage n) (c : Fin n → ℚ) : Bool :=
  decide (∀ i, im.margin ≤ im.toIndex c i ∧
      im.toIndex c i ≤ (im.size i : ℚ) - 1 - im.margin) &&
    (!im.hasMask || im.mask (im.toIndex c))

/-- Modelled from the spec (section 4.2 step 3): a candidate is accepted only
if every participating image accepts it. -/
def accepted {n : ℕ} (imgs : List (ParticipatingImage n)) (c : Fin n → ℚ) : Bool :=
  imgs.all fun im => imageAccepts im c

/-- Outcome of a sampling pass (spec section 7). -/
inductive SampleStatus where
  | success
  | insufficientSamples
deriving DecidableEq

/-- Modelled from the spec: the SamplerConfiguration of section 3 — target
sample count, attempt budget bounding the rejection loop, and the optional
per-axis sub-region physical size. -/
structure SamplerConfig (n : ℕ) where
  numberOfSamples : ℕ
  attemptBudget : ℕ
  suppliedRegionSize : Fin n → Option ℚ
  useRandomSampleRegion : Bool

/-- Modelled from the spec (section 4.2 steps 2-5): the bounded rejection
loop.  `gen` is the shared random stream, indexed by the attempt counter `t`;
each attempt consumes one draw, an accepted candidate is appended, and the
loop stops when `needed` samples are accepted or the budget is exhausted. -/
def drawSamples {n : ℕ} (imgs : List (ParticipatingImage n)) (gen : ℕ → Fin n → ℚ) :
    ℕ → ℕ → ℕ → List (Fin n → ℚ)
  | 0, _, _ => []
  | budget + 1, t, needed =>
    if needed = 0 then []
    else if accepted imgs (gen t) then
      gen t :: drawSamples imgs gen budget (t + 1) (needed - 1)
    else drawSamples imgs gen budget (t + 1) needed

/-- Modelled from the spec (section 4.2): one sampling pass — run the bounded
rejection loop and report `insufficientSamples` when the attempt budget was
exhausted before the requested count was reached. -/
def samplePass {n : ℕ} (imgs : List (ParticipatingImage n)) (gen : ℕ → Fin n → ℚ)
    (cfg : SamplerConfig n) : List (Fin n → ℚ) × SampleStatus :=
  let recs := drawSamples imgs gen cfg.attemptBudget 0 cfg.numberOfSamples
  (recs, if recs.length = cfg.numberOfSamples then .success else .insufficientSamples)

/-- The largest per-axis physical extent of the primary image. -/
def maxExtent {m : ℕ} (extent : Fin (m + 1) → ℚ) : ℚ :=
  Finset.univ.sup' Finset.univ_nonempty extent

/-- Modelled from the source header documentation (and spec section 4.2
step 1): the default per-axis sample-region size,
`min (extent i) (maxExtent / 3)`. -/
def defaultRegionSize {m : ℕ} (extent : Fin (m + 1) → ℚ) (i : Fin (m + 1)) : ℚ :=
  min (extent i) (maxExtent extent / 3)

/-- The per-axis sub-region size actually used by a pass: the explicitly
supplied size when present, the default otherwise. -/
def effectiveRegionSize {m : ℕ} (cfg : SamplerConfig (m + 1)) (extent : Fin (m + 1) → ℚ)
    (i : Fin (m + 1)) : ℚ :=
  (cfg.suppliedRegionSize i).getD (defaultRegionSize extent i)

/-- The twelve 2-D test coordinates of the validation harness
(`itkAdvancedLinearInterpolatorTest.cxx`, `darray2`). -/
def testCoords2D : List (Fin 2 → ℚ) :=
  [![0.1, 0.2], ![3.4, 5.8], ![4.0, 6.0], ![2.1, 8.0],
   ![-0.1, -0.1], ![0.0, 0.0], ![1.3, 1.0], ![2.0, 5.7],
   ![9.5, 9.1], ![2.0, -0.1], ![-0.1, 2.0], ![12.7, 15.3]]

/-- The per-coordinate agreement check of the validation harness: the value
difference at most `1e-3` and the squared Euclidean norm of the gradient
difference at most `(1e-3)^2` (the source compares the magnitude itself with
`1e-3`; squaring both sides is exact for nonnegative quantities). -/
def coordCheck (fA fB : (Fin 2 → ℚ) → ℚ) (gA gB : (Fin 2 → ℚ) → Fin 2 → ℚ)
    (c : Fin 2 → ℚ) : Bool :=
  decide (|fA c - fB c| ≤ 1/1000) && decide ((∑ k, (gA c k - gB c k) ^ 2) ≤ (1/1000) ^ 2)

/-- The validation harness of `itkAdvancedLinearInterpolatorTest.cxx`,
abstracted over the two interpolators' (total) value and gradient functions:
it walks the twelve test coordinates in order, returns `false` at the first
coordinate whose value or gradient difference exceeds tolerance, and `true`
otherwise. -/
def TestInterpolators (fA fB : (Fin 2 → ℚ) → ℚ) (gA gB : (Fin 2 → ℚ) → Fin 2 → ℚ) : Bool :=
  testCoords2D.all (coordCheck fA fB gA gB)

/-- A concrete one-image sampler input accepting every candidate. -/
def wpimg : ParticipatingImage 1 :=
  { toIndex := fun c => c, size := fun _ => 10, margin := 0,
    hasMask := false, mask := fun _ => true }

/-- A concrete one-image sampler input whose mask rejects every candidate. -/
def wrejimg : ParticipatingImage 1 :=
  { toIndex := fun c => c, size := fun _ => 10, margin := 0,
    hasMask := true, mask := fun _ => false }

/-- A concrete random stream. -/
def wgen : ℕ → Fin 1 → ℚ := fun _ _ => 1/2

/-- A second concrete random stream, pointwise equal to `wgen`. -/
def wgen2 : ℕ → Fin 1 → ℚ := fun _ _ => 1/2 + 0

/-- A concrete sampler configuration. -/
def wcfg : SamplerConfig 1 :=
  { numberOfSamples := 1, attemptBudget := 3,
    suppliedRegionSize := fun _ => none, useRandomSampleRegion := false }

/-- A concrete 2-D sampler configuration with no supplied region size. -/
def wcfg8 : SamplerConfig 2 :=
  { numberOfSamples := 5, attemptBudget := 10,
    suppliedRegionSize := fun _ => none, useRandomSampleRegion := true }

/-- A concrete 2-D physical extent. -/
def wextent : Fin 2 → ℚ := ![10, 30]

@[simp] lemma wfac_true (f : ℚ) : wfac f true = f := rfl

@[simp] lemma wfac_false (f : ℚ) : wfac f false = 1 - f := rfl

@[simp] lemma dfac_true : dfac true = 1 := rfl

@[simp] lemma dfac_false : dfac false = -1 := rfl

@[simp] lemma bit01_true : bit01 true = 1 := rfl

@[simp] lemma bit01_false : bit01 false = 0 := rfl

/-- Splitting a sum over `(n+1)`-bit patterns into the first bit and the rest. -/
lemma sum_pi_bool_succ {n : ℕ} (F : (Fin (n + 1) → Bool) → ℚ) :
    ∑ b : Fin (n + 1) → Bool, F b = ∑ b0 : Bool, ∑ bt : Fin n → Bool, F (Fin.cons b0 bt) := by
  rw [← Equiv.sum_comp (Fin.consEquiv (fun _ => Bool)) F, Fintype.sum_prod_type]
  rfl

/-- The corner selected by a cons bit-pattern is the cons of the corners. -/
lemma corner_cons {n : ℕ} (fl : Fin (n + 1) → ℤ) (b0 : Bool) (bt : Fin n → Bool) :
    corner fl (Fin.cons b0 bt) = Fin.cons (fl 0 + bit01 b0) (corner (Fin.tail fl) bt) := by
  funext i
  refine Fin.cases ?_ ?_ i
  · simp [corner]
  · intro j
    simp [corner, Fin.tail]

/-- The value computed by the shared O(2^N) pass coincides with the
closed-form `2^N`-neighbor weighted sum of the spec. -/
lemma recVD_fst : ∀ (n : ℕ) (p : (Fin n → ℤ) → ℚ) (fl : Fin n → ℤ) (fr : Fin n → ℚ),
    (recVD n p fl fr).1 = interpValueCF p fl fr
  | 0, p, fl, fr => by
    have hc : ∀ b : Fin 0 → Bool, corner fl b = Fin.elim0 :=
      fun b => funext fun i => i.elim0
    simp [recVD, interpValueCF, hc]
  | n + 1, p, fl, fr => by
    have hlo := recVD_fst n (fun j => p (Fin.cons (fl 0) j)) (Fin.tail fl) (Fin.tail fr)
    have hhi := recVD_fst n (fun j => p (Fin.cons (fl 0 + 1) j)) (Fin.tail fl) (Fin.tail fr)
    rw [interpValueCF, sum_pi_bool_succ, Fintype.sum_bool]
    simp only [recVD, hlo, hhi, interpValueCF, Fin.prod_univ_succ, Fin.cons_zero, Fin.cons_succ,
      corner_cons, wfac_true, wfac_false, bit01_true, bit01_false, add_zero, Fin.tail]
    rw [Finset.mul_sum, Finset.mul_sum, add_comm]
    refine congrArg₂ (· + ·) ?_ ?_ <;>
      exact Finset.sum_congr rfl fun bt _ => by ring

/-- Each index-space partial derivative computed by the shared O(2^N) pass
coincides with the closed-form replaced-weight `2^N`-neighbor sum of the
spec. -/
lemma recVD_snd : ∀ (n : ℕ) (p : (Fin n → ℤ) → ℚ) (fl : Fin n → ℤ) (fr : Fin n → ℚ)
    (k : Fin n), (recVD n p fl fr).2 k = interpDerivCF p fl fr k
  | 0, _, _, _, k => k.elim0
  | n + 1, p, fl, fr, k => by
    have hlo := recVD_fst n (fun j => p (Fin.cons (fl 0) j)) (Fin.tail fl) (Fin.tail fr)
    have hhi := recVD_fst n (fun j => p (Fin.cons (fl 0 + 1) j)) (Fin.tail fl) (Fin.tail fr)
    refine Fin.cases ?_ ?_ k
    · rw [interpDerivCF, sum_pi_bool_succ, Fintype.sum_bool]
      simp only [recVD, hlo, hhi, interpValueCF, Fin.prod_univ_succ, Fin.cons_zero, Fin.cons_succ,
        corner_cons, Fin.succ_ne_zero, if_true, if_false, dfac_true, dfac_false,
        wfac_true, wfac_false, bit01_true, bit01_false, add_zero, Fin.tail, ite_false,
        reduceIte]
      rw [sub_eq_add_neg, ← Finset.sum_neg_distrib]
      refine congrArg₂ (· + ·) ?_ ?_ <;>
        exact Finset.sum_congr rfl fun bt _ => by ring
    · intro j
      have dlo := recVD_snd n (fun jj => p (Fin.cons (fl 0) jj)) (Fin.tail fl) (Fin.tail fr) j
      have dhi := recVD_snd n (fun jj => p (Fin.cons (fl 0 + 1) jj)) (Fin.tail fl) (Fin.tail fr) j
      rw [interpDerivCF, sum_pi_bool_succ, Fintype.sum_bool]
      simp only [recVD, dlo, dhi, interpDerivCF, Fin.prod_univ_succ, Fin.cons_zero, Fin.cons_succ,
        corner_cons, Fin.succ_inj, (Fin.succ_ne_zero j).symm, if_true, if_false,
        dfac_true, dfac_false, wfac_true, wfac_false, bit01_true, bit01_false, add_zero,
        Fin.tail, ite_false, reduceIte]
      rw [Finset.mul_sum, Finset.mul_sum, add_comm]
      refine congrArg₂ (· + ·) ?_ ?_ <;>
        exact Finset.sum_congr rfl fun bt _ => by ring

/-- At an actual corner offset the hat basis reduces to the linear weight
pair `(1 - frac, frac)`. -/
lemma hat_corner (q : ℚ) (b : Bool) :
    hat (q - ((⌊q⌋ + bit01 b : ℤ) : ℚ)) = wfac (Int.fract q) b := by
  have h0 : (0 : ℚ) ≤ Int.fract q := Int.fract_nonneg q
  have h1 : Int.fract q < 1 := Int.fract_lt_one q
  cases b
  · have ha : q - ((⌊q⌋ + bit01 false : ℤ) : ℚ) = Int.fract q := by
      rw [bit01_false, add_zero]
      exact_mod_cast Int.self_sub_floor q
    rw [ha, hat, wfac_false, abs_of_nonneg h0, max_eq_right (by linarith)]
  · have ha : q - ((⌊q⌋ + bit01 true : ℤ) : ℚ) = Int.fract q - 1 := by
      rw [bit01_true]
      push_cast
      rw [Int.fract]
      ring
    rw [ha, hat, wfac_true, abs_of_nonpos (by linarith), max_eq_right (by linarith)]
    ring

/-- At an actual corner offset the hat derivative reduces to the replaced
weight pair `(-1, +1)`. -/
lemma hatD_corner (q : ℚ) (b : Bool) :
    hatD (q - ((⌊q⌋ + bit01 b : ℤ) : ℚ)) = dfac b := by
  have h0 : (0 : ℚ) ≤ Int.fract q := Int.fract_nonneg q
  have h1 : Int.fract q < 1 := Int.fract_lt_one q
  cases b
  · have ha : q - ((⌊q⌋ + bit01 false : ℤ) : ℚ) = Int.fract q := by
      rw [bit01_false, add_zero]
      exact_mod_cast Int.self_sub_floor q
    rw [ha, hatD, if_neg (by rw [abs_of_nonneg h0]; linarith),
      if_neg (by linarith), dfac_false]
  · have ha : q - ((⌊q⌋ + bit01 true : ℤ) : ℚ) = Int.fract q - 1 := by
      rw [bit01_true]
      push_cast
      rw [Int.fract]
      ring
    rw [ha, hatD, if_neg (by rw [abs_of_nonpos (by linarith)]; linarith),
      if_pos (by linarith), dfac_true]

/-- The degree-1 reference interpolator's value coincides exactly with the
spec's multilinear weighted neighbor sum. -/
lemma refValue_eq {n : ℕ} (img : Image n) (c : Fin n → ℚ) :
    refValue img c = interpValueCF img.pixel (flr c) (frc c) := by
  unfold refValue interpValueCF
  refine Finset.sum_congr rfl fun b _ => ?_
  congr 1
  refine Finset.prod_congr rfl fun i _ => ?_
  simpa only [flr, frc] using hat_corner (c i) (b i)

/-- The degree-1 reference interpolator's derivative coincides exactly with
the spec's replaced-weight neighbor sum divided by the spacing. -/
lemma refGradient_eq {n : ℕ} (img : Image n) (c : Fin n → ℚ) (k : Fin n) :
    refGradient img c k = interpDerivCF img.pixel (flr c) (frc c) k / img.spacing k := by
  unfold refGradient interpDerivCF
  congr 1
  refine Finset.sum_congr rfl fun b _ => ?_
  congr 1
  refine Finset.prod_congr rfl fun i _ => ?_
  rcases eq_or_ne i k with h | h
  · subst h
    simpa only [if_pos rfl, flr, frc] using hatD_corner (c i) (b i)
  · simpa only [if_neg h, flr, frc] using hat_corner (c i) (b i)

/-- Bumping axis 0 of an `(n+1)`-dimensional index is a cons of the bumped
head onto the unchanged tail. -/
lemma bump_cons_zero {n : ℕ} (fl : Fin (n + 1) → ℤ) :
    bump fl 0 = Fin.cons (fl 0 + 1) (Fin.tail fl) := by
  funext i
  refine Fin.cases ?_ ?_ i
  · simp [bump]
  · intro j
    simp [bump, Fin.tail, Fin.succ_ne_zero]

/-- Bumping a successor axis leaves the head unchanged and bumps the tail. -/
lemma bump_cons_succ {n : ℕ} (fl : Fin (n + 1) → ℤ) (j : Fin n) :
    bump fl j.succ = Fin.cons (fl 0) (bump (Fin.tail fl) j) := by
  funext i
  refine Fin.cases ?_ ?_ i
  · simp [bump, (Fin.succ_ne_zero j).symm]
  · intro i'
    simp [bump, Fin.tail, Fin.succ_inj]

/-- At a lattice point (all fractional parts zero) the shared pass returns
the stored sample and, along each axis, the one-sided forward difference to
the immediate upper neighbor. -/
lemma recVD_zero_frac : ∀ (n : ℕ) (p : (Fin n → ℤ) → ℚ) (fl : Fin n → ℤ),
    recVD n p fl (fun _ => 0) = (p fl, fun k => p (bump fl k) - p fl)
  | 0, p, fl => by
    have h1 : fl = Fin.elim0 := funext fun i => i.elim0
    have h2 : (fun k : Fin 0 => p (bump fl k) - p fl) = Fin.elim0 :=
      funext fun k => k.elim0
    rw [recVD, h2, h1]
  | n + 1, p, fl => by
    have hlo := recVD_zero_frac n (fun j => p (Fin.cons (fl 0) j)) (Fin.tail fl)
    have hhi := recVD_zero_frac n (fun j => p (Fin.cons (fl 0 + 1) j)) (Fin.tail fl)
    have ht : Fin.tail (fun _ : Fin (n + 1) => (0 : ℚ)) = fun _ => 0 := rfl
    simp only [recVD, ht, hlo, hhi]
    refine Prod.ext ?_ ?_
    · show (1 - 0) * p (Fin.cons (fl 0) (Fin.tail fl)) + 0 * _ = p fl
      rw [Fin.cons_self_tail]
      ring
    · funext k
      refine Fin.cases ?_ ?_ k
      · show p (Fin.cons (fl 0 + 1) (Fin.tail fl)) - p (Fin.cons (fl 0) (Fin.tail fl)) =
          p (bump fl 0) - p fl
        rw [bump_cons_zero, Fin.cons_self_tail]
      · intro j
        show (1 - 0) * (p (Fin.cons (fl 0) (bump (Fin.tail fl) j)) -
            p (Fin.cons (fl 0) (Fin.tail fl))) + 0 * _ =
          p (bump fl j.succ) - p fl
        rw [bump_cons_succ, Fin.cons_self_tail]
        ring

/-- Every record produced by the bounded rejection loop was accepted by every
participating image. -/
lemma mem_drawSamples_accepted {n : ℕ} (imgs : List (ParticipatingImage n))
    (gen : ℕ → Fin n → ℚ) :
    ∀ (budget t needed : ℕ) (r : Fin n → ℚ),
      r ∈ drawSamples imgs gen budget t needed → accepted imgs r = true
  | 0, _, _, _ => by
    intro hr
    simp [drawSamples] at hr
  | budget + 1, t, needed, r => by
    intro hr
    rw [drawSamples] at hr
    rcases eq_or_ne needed 0 with h0 | h0
    · rw [if_pos h0] at hr
      simp at hr
    · rw [if_neg h0] at hr
      by_cases hacc : accepted imgs (gen t) = true
      · rw [if_pos hacc] at hr
        rcases List.mem_cons.mp hr with h | h
        · subst h
          exact hacc
        · exact mem_drawSamples_accepted imgs gen budget (t + 1) (needed - 1) r h
      · rw [if_neg hacc] at hr
        exact mem_drawSamples_accepted imgs gen budget (t + 1) needed r hr

/-- Under an all-rejecting acceptance test the bounded rejection loop
produces no records, for any budget. -/
lemma drawSamples_all_reject {n : ℕ} (imgs : List (ParticipatingImage n))
    (gen : ℕ → Fin n → ℚ) (hrej : ∀ c, accepted imgs c = false) :
    ∀ (budget t needed : ℕ), drawSamples imgs gen budget t needed = []
  | 0, _, _ => rfl
  | budget + 1, t, needed => by
    rw [drawSamples]
    rcases eq_or_ne needed 0 with h | h
    · rw [if_pos h]
    · rw [if_neg h, if_neg (by simp [hrej (gen t)])]
      exact drawSamples_all_reject imgs gen hrej budget (t + 1) needed

/-- The bounded rejection loop depends on the random stream only through the
draws its attempt window can consume. -/
lemma drawSamples_stream_agree {n : ℕ} (imgs : List (ParticipatingImage n))
    (gen1 gen2 : ℕ → Fin n → ℚ) :
    ∀ (budget t needed : ℕ), (∀ s, t ≤ s → s < t + budget → gen1 s = gen2 s) →
      drawSamples imgs gen1 budget t needed = drawSamples imgs gen2 budget t needed
  | 0, _, _, _ => rfl
  | budget + 1, t, needed, h => by
    have h0 : gen1 t = gen2 t := h t le_rfl (by omega)
    have ih : ∀ nd, drawSamples imgs gen1 budget (t + 1) nd =
        drawSamples imgs gen2 budget (t + 1) nd :=
      fun nd => drawSamples_stream_agree imgs gen1 gen2 budget (t + 1) nd
        (fun s hs1 hs2 => h s (by omega) (by omega))
    rw [drawSamples, drawSamples, h0]
    rcases eq_or_ne needed 0 with hn | hn
    · rw [if_pos hn, if_pos hn]
    · rw [if_neg hn, if_neg hn]
      by_cases hacc : accepted imgs (gen2 t) = true
      · rw [if_pos hacc, if_pos hacc, ih (needed - 1)]
      · rw [if_neg hacc, if_neg hacc, ih needed]

/-- C1: for every in-bounds continuous coordinate of any image, in any
dimension (in particular 2 and 3), the engine's value differs from the
degree-1 reference interpolator's value by at most 1e-3, and the squared
Euclidean norm of the gradient difference is at most (1e-3)^2 — in fact both
differences are exactly zero, the two being the same degree-1 spline. -/
theorem engine_matches_reference {n : ℕ} (img : Image n) (c : Fin n → ℚ)
    (h : inBounds img c) :
    ∃ v g, EvaluateValueAndGradient img c = .ok (v, g) ∧
      |v - refValue img c| ≤ 1/1000 ∧
      (∑ k, (g k - refGradient img c k) ^ 2) ≤ (1/1000) ^ 2 := by
  refine ⟨(recVD n img.pixel (flr c) (frc c)).1,
    fun k => (recVD n img.pixel (flr c) (frc c)).2 k / img.spacing k, ?_, ?_, ?_⟩
  · rw [EvaluateValueAndGradient, if_pos h]
  · rw [recVD_fst, refValue_eq, sub_self, abs_zero]
    norm_num
  · have hz : ∀ k, (recVD n img.pixel (flr c) (frc c)).2 k / img.spacing k
        - refGradient img c k = 0 := by
      intro k
      rw [recVD_snd, refGradient_eq, sub_self]
    simp only [hz]
    simp only [ne_eq, OfNat.ofNat_ne_zero, not_false_eq_true, zero_pow, Finset.sum_const,
      smul_zero]
    positivity

/-- C1 witness: a concrete 2-D image and in-bounds coordinate. -/
theorem engine_matches_reference_witness :
    inBounds wimg wc ∧
      (∃ v g, EvaluateValueAndGradient wimg wc = .ok (v, g) ∧
        |v - refValue wimg wc| ≤ 1/1000 ∧
        (∑ k, (g k - refGradient wimg wc k) ^ 2) ≤ (1/1000) ^ 2) :=
  ⟨fun i => by fin_cases i <;> norm_num [wimg, wc],
    engine_matches_reference wimg wc (fun i => by fin_cases i <;> norm_num [wimg, wc])⟩

/-- C2: for every in-bounds coordinate, the joint evaluation returns exactly
the `2^N`-neighbor weighted sum with weights `∏ i (b i ? frac i : 1-frac i)`
as the value, and, along each axis `k`, the same sum with the axis-`k` weight
pair replaced by `(-1, +1)`, divided by axis `k`'s physical spacing, as the
gradient. -/
theorem evag_closed_form {n : ℕ} (img : Image n) (c : Fin n → ℚ) (h : inBounds img c) :
    EvaluateValueAndGradient img c = .ok
      (∑ b : Fin n → Bool, (∏ i, wfac (frc c i) (b i)) * img.pixel (corner (flr c) b),
       fun k => (∑ b : Fin n → Bool,
           (∏ i, if i = k then dfac (b i) else wfac (frc c i) (b i)) *
             img.pixel (corner (flr c) b)) / img.spacing k) := by
  rw [EvaluateValueAndGradient, if_pos h]
  refine congrArg Except.ok (Prod.ext ?_ ?_)
  · exact recVD_fst n img.pixel (flr c) (frc c)
  · funext k
    exact congrArg (fun x => x / img.spacing k) (recVD_snd n img.pixel (flr c) (frc c) k)

/-- C2 witness: a concrete 2-D image and in-bounds coordinate. -/
theorem evag_closed_form_witness :
    inBounds wimg wc ∧
      EvaluateValueAndGradient wimg wc = .ok
        (∑ b : Fin 2 → Bool, (∏ i, wfac (frc wc i) (b i)) * wimg.pixel (corner (flr wc) b),
         fun k => (∑ b : Fin 2 → Bool,
             (∏ i, if i = k then dfac (b i) else wfac (frc wc i) (b i)) *
               wimg.pixel (corner (flr wc) b)) / wimg.spacing k) :=
  ⟨fun i => by fin_cases i <;> norm_num [wimg, wc],
    evag_closed_form wimg wc (fun i => by fin_cases i <;> norm_num [wimg, wc])⟩

/-- C3: a coordinate with some component strictly below 0 or strictly above
`size - 1` makes both `Evaluate` and `EvaluateValueAndGradient` report the
`OutOfBounds` error — no silently clamped value is returned. -/
theorem out_of_bounds_rejected {n : ℕ} (img : Image n) (c : Fin n → ℚ)
    (h : ∃ i, c i < 0 ∨ (img.size i : ℚ) - 1 < c i) :
    Evaluate img c = .error .outOfBounds ∧
      EvaluateValueAndGradient img c = .error .outOfBounds := by
  have hnb : ¬ inBounds img c := by
    intro hb
    obtain ⟨i, hi⟩ := h
    rcases hi with h1 | h2
    · exact absurd (hb i).1 (not_le.mpr h1)
    · exact absurd (hb i).2 (not_le.mpr h2)
  rw [Evaluate, if_neg hnb, EvaluateValueAndGradient, if_neg hnb]
  exact ⟨rfl, rfl⟩

/-- C3 witness: a concrete coordinate with a negative component. -/
theorem out_of_bounds_rejected_witness :
    (∃ i, (![(-0.1 : ℚ), 2]) i < 0 ∨ (wimg.size i : ℚ) - 1 < (![(-0.1 : ℚ), 2]) i) ∧
      Evaluate wimg ![(-0.1 : ℚ), 2] = .error .outOfBounds ∧
      EvaluateValueAndGradient wimg ![(-0.1 : ℚ), 2] = .error .outOfBounds :=
  ⟨⟨0, Or.inl (by norm_num)⟩,
    out_of_bounds_rejected wimg ![(-0.1 : ℚ), 2] ⟨0, Or.inl (by norm_num)⟩⟩

/-- C4: for every in-bounds coordinate the value component of the joint
evaluation is exactly the result of `Evaluate`. -/
theorem value_gradient_consistency {n : ℕ} (img : Image n) (c : Fin n → ℚ)
    (h : inBounds img c) :
    (EvaluateValueAndGradient img c).map Prod.fst = Evaluate img c := by
  rw [EvaluateValueAndGradient, Evaluate, if_pos h, if_pos h]
  show Except.ok ((recVD n img.pixel (flr c) (frc c)).1) =
    Except.ok (interpValueCF img.pixel (flr c) (frc c))
  exact congrArg Except.ok (recVD_fst n img.pixel (flr c) (frc c))

/-- C4 witness: a concrete 2-D image and in-bounds coordinate. -/
theorem value_gradient_consistency_witness :
    inBounds wimg wc ∧
      (EvaluateValueAndGradient wimg wc).map Prod.fst = Evaluate wimg wc :=
  ⟨fun i => by fin_cases i <;> norm_num [wimg, wc],
    value_gradient_consistency wimg wc (fun i => by fin_cases i <;> norm_num [wimg, wc])⟩

/-- C5 counterexample: on the 10x10 spacing-one image with samples
`x^2`, the joint evaluation at the lattice point `(4.0, 6.0)` does not return
the central differences as its gradient (the axis-0 forward difference is 9
while the central difference is 8). -/
theorem lattice_gradient_not_central :
    ¬ (EvaluateValueAndGradient (image10 sqPixel) c46 =
        Except.ok (sqPixel idx46, fun k => centralDiff sqPixel idx46 k)) := by
  intro h
  have hb : inBounds (image10 sqPixel) c46 := fun i => by
    fin_cases i <;> norm_num [image10, c46]
  have hfl : flr c46 = idx46 := by
    funext i
    fin_cases i <;> norm_num [flr, c46, idx46]
  have hfr : frc c46 = fun _ => 0 := by
    funext i
    fin_cases i <;> norm_num [frc, c46, Int.fract]
  rw [EvaluateValueAndGradient, if_pos hb, hfl, hfr, recVD_zero_frac] at h
  have hg := congrArg (fun z => z.2 0) (Except.ok.inj h)
  norm_num [sqPixel, bump, drop1, idx46, centralDiff, image10] at hg

/-- C5 (amended): on a 10x10 2-D image with spacing `(1.0, 1.0)`, evaluating
at the lattice point `(4.0, 6.0)` returns exactly the stored sample at
discrete index `(4,6)`, and the gradient along each axis is the one-sided
forward difference between the sample at the immediate upper neighbor and
the sample at the point itself (not the central difference). -/
theorem lattice_point_forward_difference (p : (Fin 2 → ℤ) → ℚ) :
    EvaluateValueAndGradient (image10 p) c46 =
      Except.ok (p idx46, fun k => forwardDiff p idx46 k) := by
  have hb : inBounds (image10 p) c46 := fun i => by
    fin_cases i <;> norm_num [image10, c46]
  have hfl : flr c46 = idx46 := by
    funext i
    fin_cases i <;> norm_num [flr, c46, idx46]
  have hfr : frc c46 = fun _ => 0 := by
    funext i
    fin_cases i <;> norm_num [frc, c46, Int.fract]
  rw [EvaluateValueAndGradient, if_pos hb, hfl, hfr, recVD_zero_frac]
  refine congrArg Except.ok (Prod.ext rfl ?_)
  funext k
  show (p (bump idx46 k) - p idx46) / 1 = forwardDiff p idx46 k
  rw [div_one, forwardDiff]

/-- C5 witness: the amended statement at the concrete `x^2` sample array. -/
theorem lattice_point_forward_difference_witness :
    EvaluateValueAndGradient (image10 sqPixel) c46 =
      Except.ok (sqPixel idx46, fun k => forwardDiff sqPixel idx46 k) :=
  lattice_point_forward_difference sqPixel

/-- C6: every record produced by a sampling pass, transformed into each
participating image's own index space, lies within that image's extent minus
the boundary margin, and passes that image's mask whenever one is
configured; acceptance required every participating image to accept. -/
theorem sample_records_valid {n : ℕ} (imgs : List (ParticipatingImage n))
    (gen : ℕ → Fin n → ℚ) (cfg : SamplerConfig n) (r : Fin n → ℚ)
    (hr : r ∈ (samplePass imgs gen cfg).1) (im : ParticipatingImage n) (him : im ∈ imgs) :
    (∀ i, im.margin ≤ im.toIndex r i ∧
        im.toIndex r i ≤ (im.size i : ℚ) - 1 - im.margin) ∧
      (im.hasMask = true → im.mask (im.toIndex r) = true) := by
  have hacc : accepted imgs r = true :=
    mem_drawSamples_accepted imgs gen cfg.attemptBudget 0 cfg.numberOfSamples r hr
  have him' : imageAccepts im r = true := by
    rw [accepted, List.all_eq_true] at hacc
    exact hacc im him
  rw [imageAccepts, Bool.and_eq_true] at him'
  obtain ⟨h1, h2⟩ := him'
  refine ⟨of_decide_eq_true h1, fun hm => ?_⟩
  rw [hm] at h2
  simpa using h2

/-- C6 witness: a concrete pass producing one accepted record. -/
theorem sample_records_valid_witness :
    ((fun _ => (1/2 : ℚ)) ∈ (samplePass [wpimg] wgen wcfg).1 ∧ wpimg ∈ [wpimg]) ∧
      ((∀ i, wpimg.margin ≤ wpimg.toIndex (fun _ => (1/2 : ℚ)) i ∧
          wpimg.toIndex (fun _ => (1/2 : ℚ)) i ≤ (wpimg.size i : ℚ) - 1 - wpimg.margin) ∧
        (wpimg.hasMask = true → wpimg.mask (wpimg.toIndex fun _ => (1/2 : ℚ)) = true)) :=
by
  have hacc : accepted [wpimg] (wgen 0) = true := by
    rw [accepted]
    simp only [List.all_cons, List.all_nil, Bool.and_true]
    rw [imageAccepts]
    have hin : ∀ i, wpimg.margin ≤ wpimg.toIndex (wgen 0) i ∧
        wpimg.toIndex (wgen 0) i ≤ (wpimg.size i : ℚ) - 1 - wpimg.margin := by
      intro i
      norm_num [wpimg, wgen]
    rw [decide_eq_true hin]
    rfl
  have hdraw : drawSamples [wpimg] wgen 3 0 1 = [wgen 0] := by
    rw [drawSamples, if_neg one_ne_zero, if_pos hacc]
    rfl
  have hm : (fun _ => (1/2 : ℚ)) ∈ (samplePass [wpimg] wgen wcfg).1 := by
    show (fun _ => (1/2 : ℚ)) ∈ drawSamples [wpimg] wgen 3 0 1
    rw [hdraw]
    exact List.mem_singleton.mpr rfl
  exact ⟨⟨hm, List.mem_singleton.mpr rfl⟩,
    sample_records_valid [wpimg] wgen wcfg (fun _ => (1/2 : ℚ)) hm wpimg
      (List.mem_singleton.mpr rfl)⟩

/-- C7: with a participating image whose mask rejects every candidate, a
sampling pass (which is total: the rejection loop structurally consumes its
attempt budget) returns zero records and reports `insufficientSamples`
rather than looping indefinitely. -/
theorem all_reject_insufficient {n : ℕ} (imgs : List (ParticipatingImage n))
    (gen : ℕ → Fin n → ℚ) (cfg : SamplerConfig n) (im0 : ParticipatingImage n)
    (him : im0 ∈ imgs) (hmask : im0.hasMask = true) (hrej : ∀ x, im0.mask x = false)
    (hpos : 0 < cfg.numberOfSamples) :
    samplePass imgs gen cfg = ([], SampleStatus.insufficientSamples) := by
  have hrej' : ∀ c, accepted imgs c = false := by
    intro c
    cases hA : accepted imgs c
    · rfl
    · exfalso
      rw [accepted, List.all_eq_true] at hA
      have hone := hA im0 him
      rw [imageAccepts, Bool.and_eq_true] at hone
      have h2 := hone.2
      rw [hmask, hrej] at h2
      simp at h2
  have hdraw : drawSamples imgs gen cfg.attemptBudget 0 cfg.numberOfSamples = [] :=
    drawSamples_all_reject imgs gen hrej' cfg.attemptBudget 0 cfg.numberOfSamples
  show (drawSamples imgs gen cfg.attemptBudget 0 cfg.numberOfSamples,
    if (drawSamples imgs gen cfg.attemptBudget 0 cfg.numberOfSamples).length =
        cfg.numberOfSamples then SampleStatus.success
      else SampleStatus.insufficientSamples) = ([], SampleStatus.insufficientSamples)
  rw [hdraw, List.length_nil, if_neg hpos.ne]

/-- C7 witness: a concrete all-reject mask, budget 3, target 1. -/
theorem all_reject_insufficient_witness :
    (wrejimg ∈ [wrejimg] ∧ wrejimg.hasMask = true ∧ (∀ x, wrejimg.mask x = false) ∧
        0 < wcfg.numberOfSamples) ∧
      samplePass [wrejimg] wgen wcfg = ([], SampleStatus.insufficientSamples) :=
  ⟨⟨List.mem_singleton.mpr rfl, rfl, fun _ => rfl, Nat.one_pos⟩,
    all_reject_insufficient [wrejimg] wgen wcfg wrejimg (List.mem_singleton.mpr rfl) rfl
      (fun _ => rfl) Nat.one_pos⟩

/-- C8: for every axis whose `SampleRegionSize` was not supplied, the
effective sub-region size defaults to `min (extent i) (maxExtent / 3)`, so it
never exceeds the axis's own extent and is at most one third of the largest
extent. -/
theorem default_region_size {m : ℕ} (cfg : SamplerConfig (m + 1))
    (extent : Fin (m + 1) → ℚ) (i : Fin (m + 1)) (h : cfg.suppliedRegionSize i = none) :
    effectiveRegionSize cfg extent i = min (extent i) (maxExtent extent / 3) ∧
      effectiveRegionSize cfg extent i ≤ extent i ∧
      effectiveRegionSize cfg extent i ≤ maxExtent extent / 3 := by
  have he : effectiveRegionSize cfg extent i = min (extent i) (maxExtent extent / 3) := by
    rw [effectiveRegionSize, h, Option.getD_none, defaultRegionSize]
  exact ⟨he, by rw [he]; exact min_le_left _ _, by rw [he]; exact min_le_right _ _⟩

/-- C8 witness: a concrete configuration with no supplied size. -/
theorem default_region_size_witness :
    wcfg8.suppliedRegionSize 0 = none ∧
      (effectiveRegionSize wcfg8 wextent 0 = min (wextent 0) (maxExtent wextent / 3) ∧
        effectiveRegionSize wcfg8 wextent 0 ≤ wextent 0 ∧
        effectiveRegionSize wcfg8 wextent 0 ≤ maxExtent wextent / 3) :=
  ⟨rfl, default_region_size wcfg8 wextent 0 rfl⟩

/-- C9: two sampling passes with the same configuration whose random streams
agree on every draw the attempt budget can consume produce identical record
sequences and statuses — in particular, the same seed gives the same
stream, hence identical `SampleRecord` sequences. -/
theorem fixed_seed_deterministic {n : ℕ} (imgs : List (ParticipatingImage n))
    (gen1 gen2 : ℕ → Fin n → ℚ) (cfg : SamplerConfig n)
    (h : ∀ t, t < cfg.attemptBudget → gen1 t = gen2 t) :
    samplePass imgs gen1 cfg = samplePass imgs gen2 cfg := by
  have hd : drawSamples imgs gen1 cfg.attemptBudget 0 cfg.numberOfSamples =
      drawSamples imgs gen2 cfg.attemptBudget 0 cfg.numberOfSamples :=
    drawSamples_stream_agree imgs gen1 gen2 cfg.attemptBudget 0 cfg.numberOfSamples
      (fun s _ hs2 => h s (by omega))
  unfold samplePass
  rw [hd]

/-- C9 witness: two syntactically different but pointwise-equal streams. -/
theorem fixed_seed_deterministic_witness :
    (∀ t, t < wcfg.attemptBudget → wgen t = wgen2 t) ∧
      samplePass [wpimg] wgen wcfg = samplePass [wpimg] wgen2 wcfg :=
  ⟨fun _ _ => by funext i; norm_num [wgen, wgen2],
    fixed_seed_deterministic [wpimg] wgen wgen2 wcfg
      (fun _ _ => by funext i; norm_num [wgen, wgen2])⟩

/-- C10: the validation harness's 2-D coordinate list contains coordinates
outside the interpolatable domain of the 10-wide image — `(-0.1, -0.1)`
below 0 and `(12.7, 15.3)` beyond `size - 1` — and the harness, which
applies the two interpolators' (total) evaluation functions at every listed
coordinate, returns true exactly when every listed coordinate passes both the
value-difference and the gradient-difference tolerance checks, returning
false as soon as one coordinate fails. -/
theorem harness_behaviour :
    ((![(-0.1 : ℚ), -0.1]) ∈ testCoords2D ∧ (![(12.7 : ℚ), 15.3]) ∈ testCoords2D ∧
      (∀ p : (Fin 2 → ℤ) → ℚ, ¬ inBounds (image10 p) ![(-0.1 : ℚ), -0.1] ∧
        ¬ inBounds (image10 p) ![(12.7 : ℚ), 15.3])) ∧
    ∀ fA fB gA gB, (TestInterpolators fA fB gA gB = true ↔
      ∀ c ∈ testCoords2D, |fA c - fB c| ≤ 1/1000 ∧
        (∑ k, (gA c k - gB c k) ^ 2) ≤ (1/1000) ^ 2) := by
  constructor
  · refine ⟨by simp [testCoords2D], by simp [testCoords2D], fun p => ⟨?_, ?_⟩⟩
    · intro hb
      have h0 := (hb 0).1
      norm_num [image10] at h0
    · intro hb
      have h0 := (hb 0).2
      norm_num [image10] at h0
  · intro fA fB gA gB
    rw [TestInterpolators, List.all_eq_true]
    constructor
    · intro hall c hc
      have hcc := hall c hc
      rw [coordCheck, Bool.and_eq_true, decide_eq_true_iff, decide_eq_true_iff] at hcc
      exact hcc
    · intro hall c hc
      rw [coordCheck, Bool.and_eq_true, decide_eq_true_iff, decide_eq_true_iff]
      exact hall c hc

/-- C10 witness: the harness accepts two identical interpolators. -/
theorem harness_behaviour_witness :
    TestInterpolators (fun _ => 0) (fun _ => 0) (fun _ _ => 0) (fun _ _ => 0) = true :=
  (harness_behaviour.2 (fun _ => 0) (fun _ => 0) (fun _ _ => 0) (fun _ _ => 0)).mpr
    (by
      intro c hc
      constructor
      · norm_num
      · simp only [sub_self, ne_eq, OfNat.ofNat_ne_zero, not_false_eq_true, zero_pow,
          Finset.sum_const, smul_zero]
        positivity)

end Elx
